import Mathlib

/-!
Verification development for the DML result-collection scripts.

The repository consists of two Python files:

* `read_results.py` — locates TensorBoard event files, parses each one
  through one of two backends (the tensorboard `EventAccumulator`, falling
  back to the tensorflow `summary_iterator`), and normalizes the scalar
  records into uniform rows;
* `collect_max_tag.py` — aggregates, per run directory, the maximum value
  of one scalar tag across all event files of the run.

This file shallowly embeds those scripts.  Python floats are modelled as
rationals, Python dict lookups that may miss as `Option`, raised
exceptions as `Except`, and the filesystem as explicit data
(`PathInfo` / `Entry`).  Library behaviour that the scripts rely on
(the event-accumulator and the summary-iterator) is modelled over an
abstract event-file value (`EventFile`), and "library installed /
library parses this file" bits are an explicit environment (`ReadEnv`).
-/

deriving instance DecidableEq for Except

namespace DML

/-- One scalar entry inside an event record's summary: an optional tag
name and the scalar payload (protobuf field `simple_value`). -/
structure SummaryValue where
  tag : Option String
  simple_value : Rat
deriving DecidableEq

/-- One record of an event-log file: an optional step, an optional wall
time, and an optional summary holding scalar entries.  Mirrors the
attribute accesses made by `read_results.py` (`getattr(e, "step", None)`,
`e.summary`, `v.tag`, `v.simple_value`). -/
structure Event where
  step : Option Int
  wall_time : Option Rat
  summary : Option (List SummaryValue)
deriving DecidableEq

/-- An event-log file is the sequence of its records. -/
abbrev EventFile := List Event

/-- A normalized scalar row, as built by both backends in
`read_results.py` (dict with keys tag, step, value, wall_time). -/
structure Row where
  tag : String
  step : Option Int
  value : Rat
  wall_time : Option Rat
deriving DecidableEq

/-- Projection of a row to the fields the round-trip property compares
(tag, step, value), ignoring wall time. -/
def rowKey (r : Row) : String × Option Int × Rat := (r.tag, r.step, r.value)

/-- Python truthiness of the optional `wanted_tags` argument: `None` and
the empty list are both falsy (`if wanted_tags:`). -/
def listTruthy (w : Option (List String)) : Bool :=
  match w with
  | none => false
  | some l => !l.isEmpty

/-- Insert an element into a list if not already present (set/dict
insertion keeping first-seen order). -/
def setIns {α : Type} [DecidableEq α] (acc : List α) (a : α) : List α :=
  if a ∈ acc then acc else acc ++ [a]

/-- The scalar entries of an event (empty when the summary is absent). -/
def eventVals (e : Event) : List SummaryValue := e.summary.getD []

/-- Model of `EventAccumulator.Tags()["scalars"]`: the distinct scalar
tag names of the file, in first-seen order. -/
def eaScalarTags (file : EventFile) : List String :=
  file.foldl (fun acc e =>
    match e.summary with
    | none => acc
    | some vs => vs.foldl (fun acc v =>
        match v.tag with
        | none => acc
        | some t => setIns acc t) acc) []

/-- Model of `EventAccumulator.Scalars(tag)`: every (step, value,
wall_time) point recorded for the tag, in file order. -/
def eaScalars (file : EventFile) (tag : String) : List (Option Int × Rat × Option Rat) :=
  file.flatMap (fun e => (eventVals e).filterMap (fun v =>
    if v.tag = some tag then some (e.step, v.simple_value, e.wall_time) else none))

/-- Embedding of `_read_with_event_accumulator` (read_results.py lines
20-41): load all scalars, keep the wanted tags (all of them when the
filter is falsy), and emit one row per recorded point, tag-major. -/
def read_with_event_accumulator (file : EventFile) (wanted : Option (List String)) :
    List Row × List String :=
  let available := eaScalarTags file
  let tags := if listTruthy wanted
    then available.filter (fun t => decide (t ∈ wanted.getD []))
    else available
  (tags.flatMap (fun t => (eaScalars file t).map (fun p =>
      { tag := t, step := p.1, value := p.2.1, wall_time := p.2.2 })), available)

/-- Total lexicographic order on code points, modelling how Python's
`sorted` compares strings. -/
def dataLe : List Char → List Char → Bool
  | [], _ => true
  | _ :: _, [] => false
  | a :: as, b :: bs =>
    if a.val < b.val then true else if b.val < a.val then false else dataLe as bs

/-- Insertion step of the stable string sort. -/
def insertStr (a : String) : List String → List String
  | [] => [a]
  | b :: l => if dataLe a.data b.data then a :: b :: l else b :: insertStr a l

/-- Stable ascending sort of a list of strings (model of Python
`sorted` on strings). -/
def sortStrings : List String → List String
  | [] => []
  | b :: l => insertStr b (sortStrings l)

/-- Per-scalar-value step of the summary-iterator loop
(read_results.py lines 53-66): record the tag as available regardless of
filtering, then emit a row unless the tag is filtered out. -/
def bValStep (wanted : Option (List String)) (e : Event)
    (acc : List Row × List String) (v : SummaryValue) : List Row × List String :=
  match v.tag with
  | none => acc
  | some t =>
    let avail := setIns acc.2 t
    if listTruthy wanted && !(decide (t ∈ wanted.getD [])) then (acc.1, avail)
    else (acc.1 ++ [{ tag := t, step := e.step, value := v.simple_value, wall_time := e.wall_time }], avail)

/-- Per-event step of the summary-iterator loop: skip events without a
summary, else scan every scalar value entry. -/
def bEventStep (wanted : Option (List String)) (acc : List Row × List String)
    (e : Event) : List Row × List String :=
  match e.summary with
  | none => acc
  | some vs => vs.foldl (bValStep wanted e) acc

/-- Embedding of `_read_with_tf_summary_iterator` (read_results.py lines
43-67): sequentially scan the records, accumulating rows in file order
and the set of observed tags (returned sorted). -/
def read_with_tf_summary_iterator (file : EventFile) (wanted : Option (List String)) :
    List Row × List String :=
  let acc := file.foldl (bEventStep wanted) ([], [])
  (acc.1, sortStrings acc.2)

/-- Environment for one `read_events` call: whether each backend's
library is importable, whether each backend can parse this particular
file, and the exception text each backend raises when it fails. -/
structure ReadEnv where
  aAvail : Bool
  bAvail : Bool
  aParses : Bool
  bParses : Bool
  aErrMsg : String
  bErrMsg : String

/-- Outcome of running one backend: a result, an ImportError (library
missing), or a file-specific parse failure. -/
inductive BackendRun where
  | ok (res : List Row × List String)
  | importErr
  | parseFail (msg : String)

/-- Run Variant A (the event-accumulator backend) under the environment. -/
def runBackendA (env : ReadEnv) (file : EventFile) (wanted : Option (List String)) : BackendRun :=
  if env.aAvail = false then .importErr
  else if env.aParses = false then .parseFail env.aErrMsg
  else .ok (read_with_event_accumulator file wanted)

/-- Run Variant B (the tf summary-iterator backend) under the environment. -/
def runBackendB (env : ReadEnv) (file : EventFile) (wanted : Option (List String)) : BackendRun :=
  if env.bAvail = false then .importErr
  else if env.bParses = false then .parseFail env.bErrMsg
  else .ok (read_with_tf_summary_iterator file wanted)

/-- Backend identifier reported when Variant A served the file. -/
def backendAName : String := "tensorboard.EventAccumulator"

/-- Backend identifier reported when Variant B served the file. -/
def backendBName : String := "tensorflow.summary_iterator"

/-- The RuntimeError text raised when neither library is importable
(read_results.py lines 89-92); it names both dependencies. -/
def neitherBackendMsg : String :=
  "Neither tensorboard nor tensorflow is available. Please install one of them: pip install tensorboard or pip install tensorflow"

/-- Head of the RuntimeError text wrapping a Variant B parse failure. -/
def tfWrapHead : String := "Failed to parse event file with tensorflow: "

/-- Head of the stderr warning written when Variant A fails to parse a
specific file. -/
def eaWarnHead : String := "[Warn] EventAccumulator failed on "

/-- Separator between the path and the exception text in the warning. -/
def warnSep : String := ": "

/-- Result of `read_events`: a normal return (rows, available tags,
backend identifier) or one of the two raised RuntimeErrors. -/
inductive ReadResult where
  | ok (rows : List Row) (available : List String) (backend : String)
  | backendUnavailable (msg : String)
  | parseError (msg : String)
deriving DecidableEq

/-- The second half of `read_events` (read_results.py lines 84-94): try
Variant B; an ImportError becomes the fatal both-missing RuntimeError,
any other failure is wrapped into a parse RuntimeError. -/
def readEventsB (env : ReadEnv) (file : EventFile) (wanted : Option (List String)) : ReadResult :=
  match runBackendB env file wanted with
  | .ok res => .ok res.1 res.2 backendBName
  | .importErr => .backendUnavailable neitherBackendMsg
  | .parseFail m => .parseError (tfWrapHead ++ m)

/-- Embedding of `read_events` (read_results.py lines 69-94).  Returns
the result together with the list of warnings written to stderr: none
when Variant A succeeds or its library is absent, one warning when
Variant A is present but fails on this file. -/
def read_events (env : ReadEnv) (path : String) (file : EventFile)
    (wanted : Option (List String)) : ReadResult × List String :=
  match runBackendA env file wanted with
  | .ok res => (.ok res.1 res.2 backendAName, [])
  | .importErr => (readEventsB env file wanted, [])
  | .parseFail m => (readEventsB env file wanted, [eaWarnHead ++ path ++ warnSep ++ m])

/-- One input file of the batch loop of `read_results.main`: its base
name, its content, and whether each backend can parse it. -/
structure BatchFile where
  name : String
  content : EventFile
  aParses : Bool
  bParses : Bool

/-- Message used as the modelled accumulator exception text in batch runs. -/
def accFailText : String := "accumulator error"

/-- Message used as the modelled iterator exception text in batch runs. -/
def iterFailText : String := "iterator error"

/-- The read environment main's loop presents for one file: library
availability is process-wide, parse success is per file. -/
def mainEnvFor (aAvail bAvail : Bool) (f : BatchFile) : ReadEnv :=
  { aAvail := aAvail, bAvail := bAvail, aParses := f.aParses, bParses := f.bParses,
    aErrMsg := accFailText, bErrMsg := iterFailText }

/-- Embedding of the multi-file loop of `read_results.main`
(read_results.py lines 119-130): read each located file with
`read_events`, tag each row with its file's base name, union the
available tags.  There is no exception handler in this loop, so a
failing `read_events` call aborts the whole batch with that error. -/
def mainBatchRead (aAvail bAvail : Bool) (wanted : Option (List String)) :
    List BatchFile → List (Row × String) × List String →
    Except String (List (Row × String) × List String)
  | [], acc => .ok acc
  | f :: fs, acc =>
    match (read_events (mainEnvFor aAvail bAvail f) f.name f.content wanted).1 with
    | .ok rows avail _ =>
        mainBatchRead aAvail bAvail wanted fs
          (acc.1 ++ rows.map (fun r => (r, f.name)), avail.foldl setIns acc.2)
    | .backendUnavailable m => .error m
    | .parseError m => .error m

/-- A row as seen by `compute_max_for_run`: a dict produced by
`read_events`, accessed with `r.get("step")` and `r.get("value")`, both
of which may be absent. -/
structure AggRow where
  step : Option Int
  value : Option Rat
deriving DecidableEq

/-- A directory entry (or a directly addressed file) as the locator and
the aggregator observe it: base name, whether it is a regular file, its
modification time, and the outcome of `read_events` on it for the
requested tag (`.error` models a raised exception). -/
structure Entry where
  name : String
  isFile : Bool
  mtime : Nat
  parsed : Except String (List AggRow)
deriving DecidableEq

/-- What a filesystem path resolves to: a directory with its direct
entries, an existing regular file, or nothing. -/
inductive PathInfo where
  | isDir (entries : List Entry)
  | isFileEntry (e : Entry)
  | missing

/-- The glob pattern used by `_find_event_files`. -/
def eventFilePat : String := "events.out.tfevents."

/-- Whether a base name matches the glob `events.out.tfevents.*`
(the `*` matches any, possibly empty, suffix). -/
def matchesEventPattern (n : String) : Bool := eventFilePat.data.isPrefixOf n.data

/-- Insertion step of the stable ascending modification-time sort. -/
def insertByMtime (a : Entry) : List Entry → List Entry
  | [] => [a]
  | b :: l => if a.mtime ≤ b.mtime then a :: b :: l else b :: insertByMtime a l

/-- Stable sort by ascending modification time, modelling
`sorted(files, key=os.path.getmtime)`. -/
def sortByMtime : List Entry → List Entry
  | [] => []
  | b :: l => insertByMtime b (sortByMtime l)

/-- The error raised by the locator for a missing path. -/
inductive LocateError where
  | notFound
deriving DecidableEq

/-- Embedding of `_find_event_files` (read_results.py lines 10-18): for
a directory, the matching regular files sorted by ascending mtime; for
a file, that file alone; otherwise FileNotFoundError. -/
def find_event_files (info : PathInfo) : Except LocateError (List Entry) :=
  match info with
  | .isDir entries =>
      .ok (sortByMtime ((entries.filter (fun e => matchesEventPattern e.name)).filter
        (fun e => e.isFile)))
  | .isFileEntry e => .ok [e]
  | .missing => .error .notFound

/-- Running maximum state: best value so far, its step, its source file
base name. -/
abbrev MaxTriple := Rat × Option Int × String

/-- Per-record step of the aggregation loop (collect_max_tag.py lines
42-49): skip rows without a value; adopt a new best on strictly greater
value only. -/
def scanRow (fname : String) (acc : Option MaxTriple) (r : AggRow) : Option MaxTriple :=
  match r.value with
  | none => acc
  | some v =>
    match acc with
    | none => some (v, r.step, fname)
    | some best => if v > best.1 then some (v, r.step, fname) else some best

/-- Scan all rows of one file. -/
def scanFile (fname : String) (acc : Option MaxTriple) (rows : List AggRow) : Option MaxTriple :=
  rows.foldl (scanRow fname) acc

/-- Per-file step of the aggregation loop (collect_max_tag.py lines
35-49): a file whose read raised is skipped (the warning is modelled
separately by `compute_max_warnings`). -/
def scanEntry (acc : Option MaxTriple) (f : Entry) : Option MaxTriple :=
  match f.parsed with
  | .error _ => acc
  | .ok rows => scanFile f.name acc rows

/-- Scan all files of a run. -/
def scanFiles (files : List Entry) : Option MaxTriple :=
  files.foldl scanEntry none

/-- Restriction used for the latest-only flag: the one-element list
holding the last located file (`event_files[-1]`). -/
def lastOnly (l : List Entry) : List Entry :=
  match l.getLast? with
  | some a => [a]
  | none => []

/-- The per-run summary dict of `compute_max_for_run`. -/
structure RunSummary where
  run : String
  max_value : Rat
  max_step : Option Int
  max_file : String
deriving DecidableEq

/-- Build the returned summary from the final running-max state
(collect_max_tag.py lines 51-59): `None` when no value was seen. -/
def summaryOfTriple (run_name : String) : Option MaxTriple → Option RunSummary
  | none => none
  | some t => some { run := run_name, max_value := t.1, max_step := t.2.1, max_file := t.2.2 }

/-- Embedding of `compute_max_for_run` (collect_max_tag.py lines
20-59).  The run directory is given as resolved path information, the
run's base name as `run_name`; a FileNotFoundError from the locator
propagates. -/
def compute_max_for_run (run_name : String) (info : PathInfo) (latest_only : Bool) :
    Except LocateError (Option RunSummary) :=
  match find_event_files info with
  | .error err => .error err
  | .ok event_files =>
    if event_files.isEmpty then .ok none
    else
      let sel := if latest_only && decide (1 < event_files.length)
        then lastOnly event_files else event_files
      .ok (summaryOfTriple run_name (scanFiles sel))

/-- Whether reading this entry raised. -/
def parseFailed (e : Entry) : Bool :=
  match e.parsed with
  | .error _ => true
  | .ok _ => false

/-- The base names for which `compute_max_for_run` prints a skip
warning (collect_max_tag.py lines 38-41): exactly the processed files
whose read raised, in processing order. -/
def compute_max_warnings (info : PathInfo) (latest_only : Bool) :
    Except LocateError (List String) :=
  match find_event_files info with
  | .error err => .error err
  | .ok event_files =>
    if event_files.isEmpty then .ok []
    else
      let sel := if latest_only && decide (1 < event_files.length)
        then lastOnly event_files else event_files
      .ok ((sel.filter parseFailed).map (fun f => f.name))

/-- The (value, step, file-name) triple a row contributes to the
maximum scan, when its value is present. -/
def rowTriple (fname : String) (r : AggRow) : Option MaxTriple :=
  r.value.map (fun v => (v, r.step, fname))

/-- All triples one file contributes, in file-internal order. -/
def fileTriples (f : Entry) : List MaxTriple :=
  match f.parsed with
  | .error _ => []
  | .ok rows => rows.filterMap (rowTriple f.name)

/-- All triples a list of files contributes, in file-processing order. -/
def pooledRows (files : List Entry) : List MaxTriple :=
  files.flatMap fileTriples

/-- One step of the running-max recurrence on contributed triples. -/
def maxStep (acc : Option MaxTriple) (t : MaxTriple) : Option MaxTriple :=
  match acc with
  | none => some t
  | some best => if t.1 > best.1 then some t else some best

/-- Replace an entry whose read raised by one that read successfully
with zero records; used to state that failing files are skipped. -/
def neutralizeFailure (e : Entry) : Entry :=
  match e.parsed with
  | .error _ => { e with parsed := .ok [] }
  | .ok _ => e

/-- Drop the rows whose value is absent from an entry; used to state
that such rows never participate in the maximum. -/
def dropNoValue (e : Entry) : Entry :=
  { e with parsed := e.parsed.map (fun rows => rows.filter (fun r => r.value.isSome)) }

/-! Lemmas about the mtime sort used by the locator. -/

lemma perm_insertByMtime (a : Entry) (l : List Entry) : (insertByMtime a l).Perm (a :: l) := by
  induction l with
  | nil => simp [insertByMtime]
  | cons b t ih =>
    by_cases h : a.mtime ≤ b.mtime
    · simp [insertByMtime, h]
    · simp only [insertByMtime, h, if_neg, if_false]
      exact ((ih.cons b).trans (List.Perm.swap a b t))

lemma mem_insertByMtime (a x : Entry) (l : List Entry) :
    x ∈ insertByMtime a l ↔ x = a ∨ x ∈ l := by
  have h := (perm_insertByMtime a l).mem_iff (a := x)
  simpa using h

lemma perm_sortByMtime (l : List Entry) : (sortByMtime l).Perm l := by
  induction l with
  | nil => simp [sortByMtime]
  | cons b t ih =>
    exact (perm_insertByMtime b (sortByMtime t)).trans (ih.cons b)

lemma mem_sortByMtime (x : Entry) (l : List Entry) : x ∈ sortByMtime l ↔ x ∈ l :=
  (perm_sortByMtime l).mem_iff

lemma pairwise_insertByMtime (a : Entry) (l : List Entry)
    (h : l.Pairwise (fun x y => x.mtime ≤ y.mtime)) :
    (insertByMtime a l).Pairwise (fun x y => x.mtime ≤ y.mtime) := by
  induction l with
  | nil => simp [insertByMtime]
  | cons b t ih =>
    rw [List.pairwise_cons] at h
    by_cases hab : a.mtime ≤ b.mtime
    · simp only [insertByMtime, hab, if_pos]
      refine List.Pairwise.cons ?_ (List.Pairwise.cons h.1 h.2)
      intro y hy
      rcases List.mem_cons.mp hy with rfl | hyt
      · exact hab
      · exact le_trans hab (h.1 y hyt)
    · simp only [insertByMtime, hab, if_neg, if_false]
      refine List.Pairwise.cons ?_ (ih h.2)
      intro y hy
      rcases (mem_insertByMtime a y t).mp hy with rfl | hyt
      · exact Nat.le_of_not_le hab
      · exact h.1 y hyt

lemma pairwise_sortByMtime (l : List Entry) :
    (sortByMtime l).Pairwise (fun x y => x.mtime ≤ y.mtime) := by
  induction l with
  | nil => simp [sortByMtime]
  | cons b t ih => exact pairwise_insertByMtime b (sortByMtime t) ih

lemma mtime_le_getLast (l : List Entry) (x : Entry)
    (hp : l.Pairwise (fun a b => a.mtime ≤ b.mtime)) (hx : l.getLast? = some x) :
    ∀ y ∈ l, y.mtime ≤ x.mtime := by
  induction l with
  | nil => simp at hx
  | cons b t ih =>
    intro y hy
    cases t with
    | nil =>
      have hbx : b = x := by simpa using hx
      have hyb : y = b := by simpa using hy
      simp [hyb, hbx]
    | cons c u =>
      rw [List.getLast?_cons_cons] at hx
      rw [List.pairwise_cons] at hp
      rcases List.mem_cons.mp hy with rfl | hyt
      · have hopt : x ∈ (c :: u).getLast? := by simp [Option.mem_def, hx]
        rcases List.mem_getLast?_eq_getLast hopt with ⟨hne, hxe⟩
        exact hp.1 x (hxe ▸ List.getLast_mem hne)
      · exact ih hp.2 hx y hyt

/-! Lemmas about the aggregation scan. -/

lemma scanFile_nil (fname : String) (acc : Option MaxTriple) : scanFile fname acc [] = acc := rfl

lemma scanFiles_of_all_empty (files : List Entry)
    (h : ∀ f ∈ files, f.parsed = Except.ok ([] : List AggRow)) : scanFiles files = none := by
  have key : ∀ (l : List Entry) (acc : Option MaxTriple),
      (∀ f ∈ l, f.parsed = Except.ok ([] : List AggRow)) → l.foldl scanEntry acc = acc := by
    intro l
    induction l with
    | nil => intro acc _; rfl
    | cons f fs ih =>
      intro acc hl
      have hf : f.parsed = Except.ok ([] : List AggRow) := hl f (List.mem_cons_self f fs)
      have hstep : scanEntry acc f = acc := by
        simp [scanEntry, hf, scanFile_nil]
      rw [List.foldl_cons, hstep]
      exact ih acc (fun g hg => hl g (List.mem_cons_of_mem f hg))
  exact key files none h

lemma mem_lastOnly (l : List Entry) (x : Entry) (h : x ∈ lastOnly l) : x ∈ l := by
  unfold lastOnly at h
  cases hL : l.getLast? with
  | none => rw [hL] at h; simp at h
  | some a =>
    rw [hL] at h
    have hxa : x = a := by simpa using h
    subst hxa
    have hopt : x ∈ l.getLast? := by simp [Option.mem_def, hL]
    rcases List.mem_getLast?_eq_getLast hopt with ⟨hne, hxe⟩
    exact hxe ▸ List.getLast_mem hne

lemma compute_max_ok (run_name : String) (info : PathInfo) (files : List Entry) (lo : Bool)
    (hloc : find_event_files info = .ok files) :
    compute_max_for_run run_name info lo =
      if files.isEmpty then .ok none
      else .ok (summaryOfTriple run_name (scanFiles
        (if lo && decide (1 < files.length) then lastOnly files else files))) := by
  simp only [compute_max_for_run, hloc]

lemma warnings_ok (info : PathInfo) (files : List Entry) (lo : Bool)
    (hloc : find_event_files info = .ok files) :
    compute_max_warnings info lo =
      if files.isEmpty then .ok []
      else .ok (((if lo && decide (1 < files.length) then lastOnly files else files).filter
        parseFailed).map (fun f => f.name)) := by
  simp only [compute_max_warnings, hloc]

/-- C6: the locator returns, for a directory, exactly the regular files
directly inside it whose names match the convention
events.out.tfevents.*, ordered by ascending modification time; for an
existing file, the one-element list holding that file regardless of its
name; and for a missing path, the not-found error. -/
theorem c6_locator_contract (entries : List Entry) (f : Entry) :
    (∃ l, find_event_files (.isDir entries) = .ok l ∧
      l.Perm ((entries.filter (fun e => matchesEventPattern e.name)).filter
        (fun e => e.isFile)) ∧
      l.Pairwise (fun a b => a.mtime ≤ b.mtime)) ∧
    find_event_files (.isFileEntry f) = .ok [f] ∧
    find_event_files .missing = .error .notFound :=
  ⟨⟨_, rfl, perm_sortByMtime _, pairwise_sortByMtime _⟩, rfl, rfl⟩

/-- C7: for a run directory, compute_max_for_run returns a successful
absence (ok none, no exception) both when no entry matches the
event-file convention and when every matching file read successfully
but yielded zero records for the tag. -/
theorem c7_absent_is_normal (run_name : String) (entries : List Entry) (lo : Bool) :
    ((entries.filter (fun e => matchesEventPattern e.name)).filter (fun e => e.isFile) = [] →
      compute_max_for_run run_name (.isDir entries) lo = .ok none) ∧
    ((∀ e ∈ entries, e.isFile = true → matchesEventPattern e.name = true →
        e.parsed = Except.ok ([] : List AggRow)) →
      compute_max_for_run run_name (.isDir entries) lo = .ok none) := by
  have hloc0 : find_event_files (.isDir entries) = Except.ok (sortByMtime ((entries.filter
      (fun e => matchesEventPattern e.name)).filter (fun e => e.isFile))) := rfl
  constructor
  · intro h
    rw [compute_max_ok run_name (.isDir entries) _ lo hloc0]
    rw [h]
    simp [sortByMtime]
  · intro h2
    have hall : ∀ f ∈ sortByMtime ((entries.filter (fun e => matchesEventPattern e.name)).filter
        (fun e => e.isFile)), f.parsed = Except.ok ([] : List AggRow) := by
      intro f hf
      rw [mem_sortByMtime] at hf
      rw [List.mem_filter] at hf
      rcases hf with ⟨hf1, hfile⟩
      rw [List.mem_filter] at hf1
      exact h2 f hf1.1 hfile hf1.2
    rw [compute_max_ok run_name (.isDir entries) _ lo hloc0]
    by_cases hF : (sortByMtime ((entries.filter (fun e => matchesEventPattern e.name)).filter
        (fun e => e.isFile))).isEmpty
    · rw [if_pos hF]
    · rw [if_neg hF]
      have hsel : ∀ f ∈ (if lo && decide (1 < (sortByMtime ((entries.filter
          (fun e => matchesEventPattern e.name)).filter (fun e => e.isFile))).length)
          then lastOnly (sortByMtime ((entries.filter (fun e => matchesEventPattern e.name)).filter
            (fun e => e.isFile)))
          else sortByMtime ((entries.filter (fun e => matchesEventPattern e.name)).filter
            (fun e => e.isFile))), f.parsed = Except.ok ([] : List AggRow) := by
        intro f hf
        split at hf
        · exact hall f (mem_lastOnly _ _ hf)
        · exact hall f hf
      rw [scanFiles_of_all_empty _ hsel]
      rfl

/-- C8: when the locator finds more than one file, compute_max_for_run
with latest_only processes exactly the last file of the ascending-mtime
list, which has maximal modification time; with one or zero files
located, latest_only changes nothing. -/
theorem c8_latest_only_restricts (run_name : String) (entries : List Entry) (files : List Entry)
    (hloc : find_event_files (.isDir entries) = .ok files) :
    (1 < files.length →
      ∃ l, files.getLast? = some l ∧
        compute_max_for_run run_name (.isDir entries) true
          = .ok (summaryOfTriple run_name (scanFiles [l])) ∧
        ∀ f ∈ files, f.mtime ≤ l.mtime) ∧
    (files.length ≤ 1 → ∀ b : Bool,
        compute_max_for_run run_name (.isDir entries) b
          = compute_max_for_run run_name (.isDir entries) false) := by
  have heq : sortByMtime ((entries.filter (fun e => matchesEventPattern e.name)).filter
      (fun e => e.isFile)) = files := by
    simpa [find_event_files] using hloc
  have hsorted : files.Pairwise (fun a b => a.mtime ≤ b.mtime) := by
    rw [← heq]; exact pairwise_sortByMtime _
  constructor
  · intro hgt
    have hne : files ≠ [] := by
      intro hnil; rw [hnil] at hgt; simp at hgt
    obtain ⟨l, hl⟩ : ∃ l, files.getLast? = some l :=
      ⟨files.getLast hne, List.getLast?_eq_getLast_of_ne_nil hne⟩
    refine ⟨l, hl, ?_, ?_⟩
    · rw [compute_max_ok run_name _ files true hloc]
      have hie : files.isEmpty = false := by
        cases files with
        | nil => simp at hgt
        | cons a t => rfl
      simp [hie, hgt, lastOnly, hl]
    · exact fun f hf => mtime_le_getLast files l hsorted hl f hf
  · intro hle b
    rw [compute_max_ok run_name _ files b hloc, compute_max_ok run_name _ files false hloc]
    have hd : decide (1 < files.length) = false := by
      simp only [decide_eq_false_iff_not]
      omega
    rw [hd]
    simp

/-- Run name used by the concrete witness inputs. -/
def wRun : String := "run"

/-- A directory entry whose name does not match the event-file pattern. -/
def w7e : Entry :=
  { name := "notes.txt", isFile := true, mtime := 5,
    parsed := Except.ok [{ step := some 1, value := some 2 }] }

theorem c7_witness : compute_max_for_run wRun (.isDir [w7e]) false = .ok none :=
  (c7_absent_is_normal wRun [w7e] false).1 (by decide)

/-- Witness entry, newest of the three. -/
def w8a : Entry :=
  { name := "events.out.tfevents.3", isFile := true, mtime := 3,
    parsed := Except.ok [{ step := some 30, value := some 3 }] }

/-- Witness entry, oldest of the three. -/
def w8b : Entry :=
  { name := "events.out.tfevents.1", isFile := true, mtime := 1,
    parsed := Except.ok [{ step := some 10, value := some 1 }] }

/-- Witness entry, middle of the three. -/
def w8c : Entry :=
  { name := "events.out.tfevents.2", isFile := true, mtime := 2,
    parsed := Except.ok [{ step := some 20, value := some 2 }] }

/-! The aggregation scan as a running maximum over the pooled triples. -/

lemma scanRow_eq (fname : String) (acc : Option MaxTriple) (r : AggRow) :
    scanRow fname acc r =
      match rowTriple fname r with
      | none => acc
      | some t => maxStep acc t := by
  cases hr : r.value with
  | none => simp [scanRow, rowTriple, hr]
  | some v =>
    cases acc with
    | none => simp [scanRow, rowTriple, hr, maxStep]
    | some best => simp [scanRow, rowTriple, hr, maxStep]

lemma scanFile_eq (fname : String) (rows : List AggRow) : ∀ acc : Option MaxTriple,
    scanFile fname acc rows = (rows.filterMap (rowTriple fname)).foldl maxStep acc := by
  induction rows with
  | nil => intro acc; rfl
  | cons r rs ih =>
    intro acc
    have hstep : scanFile fname acc (r :: rs) = scanFile fname (scanRow fname acc r) rs := rfl
    rw [hstep, ih]
    cases hr : rowTriple fname r with
    | none =>
      rw [List.filterMap_cons_none hr]
      have : scanRow fname acc r = acc := by rw [scanRow_eq, hr]
      rw [this]
    | some t =>
      rw [List.filterMap_cons_some hr, List.foldl_cons]
      have : scanRow fname acc r = maxStep acc t := by rw [scanRow_eq, hr]
      rw [this]

lemma scanEntry_eq (acc : Option MaxTriple) (f : Entry) :
    scanEntry acc f = (fileTriples f).foldl maxStep acc := by
  cases hp : f.parsed with
  | error e => simp [scanEntry, fileTriples, hp]
  | ok rows => simp [scanEntry, fileTriples, hp, scanFile_eq]

lemma scanFiles_eq (files : List Entry) :
    scanFiles files = (pooledRows files).foldl maxStep none := by
  have key : ∀ (l : List Entry) (acc : Option MaxTriple),
      l.foldl scanEntry acc = (pooledRows l).foldl maxStep acc := by
    intro l
    induction l with
    | nil => intro acc; rfl
    | cons f fs ih =>
      intro acc
      rw [List.foldl_cons, ih, scanEntry_eq]
      simp [pooledRows, List.foldl_append]
  exact key files none

lemma foldl_maxStep_char (l : List MaxTriple) : ∀ a : MaxTriple,
    (l.foldl maxStep (some a) = some a ∧ ∀ t ∈ l, t.1 ≤ a.1) ∨
    (∃ i, ∃ h : i < l.length, l.foldl maxStep (some a) = some (l.get ⟨i, h⟩) ∧
      a.1 < (l.get ⟨i, h⟩).1 ∧ (∀ t ∈ l, t.1 ≤ (l.get ⟨i, h⟩).1) ∧
      ∀ j, ∀ hj : j < l.length, j < i → (l.get ⟨j, hj⟩).1 < (l.get ⟨i, h⟩).1) := by
  induction l with
  | nil =>
    intro a
    left
    exact ⟨rfl, by simp⟩
  | cons t ts ih =>
    intro a
    by_cases h : a.1 < t.1
    · have hstep : (t :: ts).foldl maxStep (some a) = ts.foldl maxStep (some t) := by
        simp [List.foldl_cons, maxStep, h]
      rcases ih t with ⟨heq, hle⟩ | ⟨i, hi, heq, hlt, hle, hfirst⟩
      · right
        refine ⟨0, by simp, ?_, ?_, ?_, ?_⟩
        · rw [hstep, heq]; rfl
        · exact h
        · intro x hx
          rcases List.mem_cons.mp hx with rfl | hxt
          · exact le_refl _
          · exact hle x hxt
        · intro j hj hj0
          exact absurd hj0 (Nat.not_lt_zero j)
      · right
        refine ⟨i + 1, by simpa using Nat.succ_lt_succ hi, ?_, ?_, ?_, ?_⟩
        · rw [hstep, heq]; rfl
        · exact lt_trans h hlt
        · intro x hx
          rcases List.mem_cons.mp hx with rfl | hxt
          · exact le_of_lt hlt
          · exact hle x hxt
        · intro j hj hj0
          cases j with
          | zero => exact hlt
          | succ k =>
            exact hfirst k (Nat.lt_of_succ_lt_succ hj) (Nat.lt_of_succ_lt_succ hj0)
    · have hstep : (t :: ts).foldl maxStep (some a) = ts.foldl maxStep (some a) := by
        simp [List.foldl_cons, maxStep, h]
      rcases ih a with ⟨heq, hle⟩ | ⟨i, hi, heq, hlt, hle, hfirst⟩
      · left
        refine ⟨by rw [hstep, heq], ?_⟩
        intro x hx
        rcases List.mem_cons.mp hx with rfl | hxt
        · exact le_of_not_lt h
        · exact hle x hxt
      · right
        refine ⟨i + 1, by simpa using Nat.succ_lt_succ hi, ?_, ?_, ?_, ?_⟩
        · rw [hstep, heq]; rfl
        · exact hlt
        · intro x hx
          rcases List.mem_cons.mp hx with rfl | hxt
          · exact le_of_lt (lt_of_le_of_lt (le_of_not_lt h) hlt)
          · exact hle x hxt
        · intro j hj hj0
          cases j with
          | zero => exact lt_of_le_of_lt (le_of_not_lt h) hlt
          | succ k =>
            exact hfirst k (Nat.lt_of_succ_lt_succ hj) (Nat.lt_of_succ_lt_succ hj0)

lemma foldl_maxStep_first (l : List MaxTriple) (hne : l ≠ []) :
    ∃ i, ∃ h : i < l.length, l.foldl maxStep none = some (l.get ⟨i, h⟩) ∧
      (∀ t ∈ l, t.1 ≤ (l.get ⟨i, h⟩).1) ∧
      ∀ j, ∀ hj : j < l.length, j < i → (l.get ⟨j, hj⟩).1 < (l.get ⟨i, h⟩).1 := by
  cases l with
  | nil => exact absurd rfl hne
  | cons t ts =>
    have hstep : (t :: ts).foldl maxStep none = ts.foldl maxStep (some t) := by
      simp [List.foldl_cons, maxStep]
    rcases foldl_maxStep_char ts t with ⟨heq, hle⟩ | ⟨i, hi, heq, hlt, hle, hfirst⟩
    · refine ⟨0, by simp, ?_, ?_, ?_⟩
      · rw [hstep, heq]; rfl
      · intro x hx
        rcases List.mem_cons.mp hx with rfl | hxt
        · exact le_refl _
        · exact hle x hxt
      · intro j hj hj0
        exact absurd hj0 (Nat.not_lt_zero j)
    · refine ⟨i + 1, by simpa using Nat.succ_lt_succ hi, ?_, ?_, ?_⟩
      · rw [hstep, heq]; rfl
      · intro x hx
        rcases List.mem_cons.mp hx with rfl | hxt
        · exact le_of_lt hlt
        · exact hle x hxt
      · intro j hj hj0
        cases j with
        | zero => exact hlt
        | succ k =>
          exact hfirst k (Nat.lt_of_succ_lt_succ hj) (Nat.lt_of_succ_lt_succ hj0)

/-- C1: for a run directory whose event files all parse and whose
pooled records contain at least one value for the requested tag,
compute_max_for_run returns the summary of the first pooled record
attaining the maximum: its value bounds every pooled value from above,
and every strictly earlier pooled record (files oldest-modified first,
records in file-internal order) has a strictly smaller value, so on an
exact tie the first-observed record supplies step and file. -/
theorem c1_max_first_occurrence (run_name : String) (entries : List Entry) (files : List Entry)
    (hloc : find_event_files (.isDir entries) = .ok files)
    (hparse : ∀ f ∈ files, ∃ rows, f.parsed = Except.ok rows)
    (hne : pooledRows files ≠ []) :
    ∃ i, ∃ h : i < (pooledRows files).length,
      compute_max_for_run run_name (.isDir entries) false
        = .ok (some
            { run := run_name,
              max_value := ((pooledRows files).get ⟨i, h⟩).1,
              max_step := ((pooledRows files).get ⟨i, h⟩).2.1,
              max_file := ((pooledRows files).get ⟨i, h⟩).2.2 }) ∧
      (∀ t ∈ pooledRows files, t.1 ≤ ((pooledRows files).get ⟨i, h⟩).1) ∧
      ∀ j, ∀ hj : j < (pooledRows files).length, j < i →
        ((pooledRows files).get ⟨j, hj⟩).1 < ((pooledRows files).get ⟨i, h⟩).1 := by
  have hfne : files ≠ [] := by
    intro hnil
    rw [hnil] at hne
    exact hne rfl
  obtain ⟨i, h, heq, hle, hfirst⟩ := foldl_maxStep_first (pooledRows files) hne
  refine ⟨i, h, ?_, hle, hfirst⟩
  rw [compute_max_ok run_name _ files false hloc]
  have hie : files.isEmpty = false := by
    cases files with
    | nil => exact absurd rfl hfne
    | cons a t => rfl
  simp only [hie, Bool.false_eq_true, if_false, Bool.false_and]
  rw [scanFiles_eq, heq]
  rfl

/-! Congruence of the aggregation under entry transformations that
preserve name, file kind and modification time. -/

lemma isEmpty_map_entry (g : Entry → Entry) (l : List Entry) :
    (l.map g).isEmpty = l.isEmpty := by
  cases l <;> rfl

lemma insertByMtime_map (g : Entry → Entry) (hm : ∀ e, (g e).mtime = e.mtime) (a : Entry) :
    ∀ l, insertByMtime (g a) (l.map g) = (insertByMtime a l).map g := by
  intro l
  induction l with
  | nil => rfl
  | cons b t ih =>
    simp only [List.map_cons, insertByMtime, hm]
    by_cases h : a.mtime ≤ b.mtime
    · rw [if_pos h, if_pos h]
      rfl
    · rw [if_neg h, if_neg h]
      simp [ih]

lemma sortByMtime_map (g : Entry → Entry) (hm : ∀ e, (g e).mtime = e.mtime) :
    ∀ l, sortByMtime (l.map g) = (sortByMtime l).map g := by
  intro l
  induction l with
  | nil => rfl
  | cons b t ih =>
    simp only [List.map_cons, sortByMtime, ih]
    exact insertByMtime_map g hm b (sortByMtime t)

lemma lastOnly_map (g : Entry → Entry) (l : List Entry) :
    lastOnly (l.map g) = (lastOnly l).map g := by
  unfold lastOnly
  rw [List.getLast?_map]
  cases l.getLast? <;> rfl

lemma scanFiles_map (g : Entry → Entry)
    (hstep : ∀ acc e, scanEntry acc (g e) = scanEntry acc e) (l : List Entry) :
    scanFiles (l.map g) = scanFiles l := by
  unfold scanFiles
  rw [List.foldl_map]
  have hfun : (fun (acc : Option MaxTriple) (e : Entry) => scanEntry acc (g e)) = scanEntry := by
    funext acc e
    exact hstep acc e
  rw [hfun]

lemma find_event_files_map (g : Entry → Entry)
    (hn : ∀ e, (g e).name = e.name) (hf : ∀ e, (g e).isFile = e.isFile)
    (hm : ∀ e, (g e).mtime = e.mtime) (entries : List Entry) :
    find_event_files (.isDir (entries.map g))
      = Except.ok ((sortByMtime ((entries.filter (fun e => matchesEventPattern e.name)).filter
          (fun e => e.isFile))).map g) := by
  simp only [find_event_files]
  rw [List.filter_map, List.filter_map]
  have h1 : ((fun e => matchesEventPattern e.name) ∘ g) = fun e => matchesEventPattern e.name := by
    funext e
    simp [Function.comp, hn]
  have h2 : ((fun e : Entry => e.isFile) ∘ g) = fun e : Entry => e.isFile := by
    funext e
    simp [Function.comp, hf]
  rw [h1, h2, sortByMtime_map g hm]

lemma compute_max_map (g : Entry → Entry)
    (hn : ∀ e, (g e).name = e.name) (hf : ∀ e, (g e).isFile = e.isFile)
    (hm : ∀ e, (g e).mtime = e.mtime)
    (hstep : ∀ acc e, scanEntry acc (g e) = scanEntry acc e)
    (run_name : String) (entries : List Entry) (lo : Bool) :
    compute_max_for_run run_name (.isDir (entries.map g)) lo
      = compute_max_for_run run_name (.isDir entries) lo := by
  have hloc0 : find_event_files (.isDir entries) = Except.ok (sortByMtime ((entries.filter
      (fun e => matchesEventPattern e.name)).filter (fun e => e.isFile))) := rfl
  rw [compute_max_ok run_name (.isDir (entries.map g)) _ lo (find_event_files_map g hn hf hm entries)]
  rw [compute_max_ok run_name (.isDir entries) _ lo hloc0]
  rw [isEmpty_map_entry, List.length_map]
  have hsel : (if lo && decide (1 < (sortByMtime ((entries.filter
        (fun e => matchesEventPattern e.name)).filter (fun e => e.isFile))).length)
      then lastOnly ((sortByMtime ((entries.filter (fun e => matchesEventPattern e.name)).filter
        (fun e => e.isFile))).map g)
      else (sortByMtime ((entries.filter (fun e => matchesEventPattern e.name)).filter
        (fun e => e.isFile))).map g)
    = (if lo && decide (1 < (sortByMtime ((entries.filter
        (fun e => matchesEventPattern e.name)).filter (fun e => e.isFile))).length)
      then lastOnly (sortByMtime ((entries.filter (fun e => matchesEventPattern e.name)).filter
        (fun e => e.isFile)))
      else sortByMtime ((entries.filter (fun e => matchesEventPattern e.name)).filter
        (fun e => e.isFile))).map g := by
    split
    · exact lastOnly_map g _
    · rfl
  rw [hsel, scanFiles_map g hstep]

lemma scanFile_filter_isSome (fname : String) (rows : List AggRow) :
    ∀ acc, scanFile fname acc (rows.filter (fun r => r.value.isSome)) = scanFile fname acc rows := by
  induction rows with
  | nil => intro acc; rfl
  | cons r rs ih =>
    intro acc
    cases hr : r.value with
    | none =>
      have hflt : (r :: rs).filter (fun r => r.value.isSome) = rs.filter (fun r => r.value.isSome) := by
        simp [List.filter_cons, hr]
      have hrow : scanRow fname acc r = acc := by simp [scanRow, hr]
      calc scanFile fname acc ((r :: rs).filter (fun r => r.value.isSome))
          = scanFile fname acc (rs.filter (fun r => r.value.isSome)) := by rw [hflt]
        _ = scanFile fname acc rs := ih acc
        _ = scanFile fname (scanRow fname acc r) rs := by rw [hrow]
        _ = scanFile fname acc (r :: rs) := rfl
    | some v =>
      have hflt : (r :: rs).filter (fun r => r.value.isSome)
          = r :: rs.filter (fun r => r.value.isSome) := by
        simp [List.filter_cons, hr]
      calc scanFile fname acc ((r :: rs).filter (fun r => r.value.isSome))
          = scanFile fname (scanRow fname acc r) (rs.filter (fun r => r.value.isSome)) := by
            rw [hflt]; rfl
        _ = scanFile fname (scanRow fname acc r) rs := ih _
        _ = scanFile fname acc (r :: rs) := rfl

lemma scanEntry_neutralize (acc : Option MaxTriple) (e : Entry) :
    scanEntry acc (neutralizeFailure e) = scanEntry acc e := by
  cases hp : e.parsed with
  | error m => simp [neutralizeFailure, scanEntry, hp, scanFile]
  | ok rows => simp [neutralizeFailure, scanEntry, hp]

lemma scanEntry_dropNoValue (acc : Option MaxTriple) (e : Entry) :
    scanEntry acc (dropNoValue e) = scanEntry acc e := by
  cases hp : e.parsed with
  | error m => simp [dropNoValue, scanEntry, hp, Except.map]
  | ok rows => simp [dropNoValue, scanEntry, hp, Except.map, scanFile_filter_isSome]

lemma scanFile_no_values (fname : String) (rows : List AggRow)
    (h : ∀ r ∈ rows, r.value = none) : ∀ acc, scanFile fname acc rows = acc := by
  induction rows with
  | nil => intro acc; rfl
  | cons r rs ih =>
    intro acc
    have hr : r.value = none := h r (List.mem_cons_self r rs)
    have hrow : scanRow fname acc r = acc := by simp [scanRow, hr]
    calc scanFile fname acc (r :: rs) = scanFile fname (scanRow fname acc r) rs := rfl
      _ = scanFile fname acc rs := by rw [hrow]
      _ = acc := ih (fun x hx => h x (List.mem_cons_of_mem r hx)) acc

lemma scanFiles_no_values (l : List Entry)
    (h : ∀ f ∈ l, ∀ rows, f.parsed = Except.ok rows → ∀ r ∈ rows, r.value = none) :
    scanFiles l = none := by
  have key : ∀ (m : List Entry) (acc : Option MaxTriple),
      (∀ f ∈ m, ∀ rows, f.parsed = Except.ok rows → ∀ r ∈ rows, r.value = none) →
      m.foldl scanEntry acc = acc := by
    intro m
    induction m with
    | nil => intro acc _; rfl
    | cons f fs ih =>
      intro acc hm
      have hstep : scanEntry acc f = acc := by
        cases hp : f.parsed with
        | error x => simp [scanEntry, hp]
        | ok rows =>
          simp only [scanEntry, hp]
          exact scanFile_no_values f.name rows (hm f (List.mem_cons_self f fs) rows hp) acc
      rw [List.foldl_cons, hstep]
      exact ih acc (fun x hx => hm x (List.mem_cons_of_mem f hx))
  exact key l none h

lemma neutralizeFailure_name (e : Entry) : (neutralizeFailure e).name = e.name := by
  cases hp : e.parsed <;> simp [neutralizeFailure, hp]

lemma neutralizeFailure_isFile (e : Entry) : (neutralizeFailure e).isFile = e.isFile := by
  cases hp : e.parsed <;> simp [neutralizeFailure, hp]

lemma neutralizeFailure_mtime (e : Entry) : (neutralizeFailure e).mtime = e.mtime := by
  cases hp : e.parsed <;> simp [neutralizeFailure, hp]

/-- C10: records whose value field is absent never participate in the
maximum and are skipped without raising: dropping them beforehand
changes the (always successful) result not at all, and a run whose
records all lack a value yields the same successful absence as a run
with no matching records. -/
theorem c10_missing_values_skipped (run_name : String) (entries : List Entry) (lo : Bool) :
    (compute_max_for_run run_name (.isDir entries) lo
      = compute_max_for_run run_name (.isDir (entries.map dropNoValue)) lo) ∧
    ((∀ e ∈ entries, ∀ rows, e.parsed = Except.ok rows → ∀ r ∈ rows, r.value = none) →
      compute_max_for_run run_name (.isDir entries) lo = .ok none) := by
  constructor
  · exact (compute_max_map dropNoValue (fun e => rfl) (fun e => rfl) (fun e => rfl)
      scanEntry_dropNoValue run_name entries lo).symm
  · intro h2
    have hloc0 : find_event_files (.isDir entries) = Except.ok (sortByMtime ((entries.filter
        (fun e => matchesEventPattern e.name)).filter (fun e => e.isFile))) := rfl
    have hall : ∀ f ∈ sortByMtime ((entries.filter (fun e => matchesEventPattern e.name)).filter
        (fun e => e.isFile)), ∀ rows, f.parsed = Except.ok rows → ∀ r ∈ rows, r.value = none := by
      intro f hf
      rw [mem_sortByMtime] at hf
      rw [List.mem_filter] at hf
      rw [List.mem_filter] at hf
      exact h2 f hf.1.1
    rw [compute_max_ok run_name (.isDir entries) _ lo hloc0]
    by_cases hF : (sortByMtime ((entries.filter (fun e => matchesEventPattern e.name)).filter
        (fun e => e.isFile))).isEmpty
    · rw [if_pos hF]
    · rw [if_neg hF]
      have hsel : ∀ f ∈ (if lo && decide (1 < (sortByMtime ((entries.filter
          (fun e => matchesEventPattern e.name)).filter (fun e => e.isFile))).length)
          then lastOnly (sortByMtime ((entries.filter (fun e => matchesEventPattern e.name)).filter
            (fun e => e.isFile)))
          else sortByMtime ((entries.filter (fun e => matchesEventPattern e.name)).filter
            (fun e => e.isFile))), ∀ rows, f.parsed = Except.ok rows → ∀ r ∈ rows, r.value = none := by
        intro f hf
        split at hf
        · exact hall f (mem_lastOnly _ _ hf)
        · exact hall f hf
      rw [scanFiles_no_values _ hsel]
      rfl

/-- Entry whose single record lacks a value. -/
def w10e : Entry :=
  { name := "events.out.tfevents.n", isFile := true, mtime := 1,
    parsed := Except.ok [{ step := some 1, value := none }] }

theorem c10_witness : compute_max_for_run wRun (.isDir [w10e]) false = .ok none :=
  (c10_missing_values_skipped wRun [w10e] false).2 (by
    intro e he rows hrows r hr
    have he2 : e = w10e := by simpa using he
    subst he2
    have h3 : Except.ok ([{ step := some 1, value := none }] : List AggRow) = Except.ok rows :=
      hrows
    cases h3
    have hr2 : r = { step := some 1, value := none } := by simpa using hr
    subst hr2
    rfl)

/-- C2 (amended): the skip-with-warning resilience belongs to the run
aggregator.  In compute_max_for_run a file whose read raised behaves
exactly like a successfully read file with zero records — the other
files' contributions are unchanged — and the skip warnings name exactly
the located files whose read raised.  (The reader's own batch loop in
read_results.main has no handler; see the counterexample.) -/
theorem c2_aggregator_skips_failures (run_name : String) (entries files : List Entry) (lo : Bool)
    (hloc : find_event_files (.isDir entries) = .ok files) :
    (compute_max_for_run run_name (.isDir entries) lo
      = compute_max_for_run run_name (.isDir (entries.map neutralizeFailure)) lo) ∧
    ∃ ws, compute_max_warnings (.isDir entries) false = .ok ws ∧
      ∀ n, n ∈ ws ↔ ∃ f ∈ files, parseFailed f = true ∧ f.name = n := by
  constructor
  · exact (compute_max_map neutralizeFailure neutralizeFailure_name neutralizeFailure_isFile
      neutralizeFailure_mtime scanEntry_neutralize run_name entries lo).symm
  · rw [warnings_ok (.isDir entries) files false hloc]
    by_cases hF : files.isEmpty
    · have hnil : files = [] := by
        cases files with
        | nil => rfl
        | cons a t => simp [List.isEmpty_cons] at hF
      refine ⟨[], by rw [if_pos hF], ?_⟩
      subst hnil
      intro n
      simp
    · refine ⟨(files.filter parseFailed).map (fun f => f.name), ?_, ?_⟩
      · rw [if_neg hF]
        simp
      · intro n
        simp only [List.mem_map, List.mem_filter]
        constructor
        · rintro ⟨f, ⟨hf, hpf⟩, hname⟩
          exact ⟨f, hf, hpf, hname⟩
        · rintro ⟨f, hf, hpf, hname⟩
          exact ⟨f, ⟨hf, hpf⟩, hname⟩

/-- Exception text of the failing witness entry. -/
def wErrMsg : String := "parse failure"

/-- Witness entry whose read raised. -/
def w2bad : Entry :=
  { name := "events.out.tfevents.x", isFile := true, mtime := 1,
    parsed := Except.error wErrMsg }

/-- Witness entry that read successfully. -/
def w2good : Entry :=
  { name := "events.out.tfevents.y", isFile := true, mtime := 2,
    parsed := Except.ok [{ step := some 4, value := some 7 }] }

theorem c2_witness :
    (compute_max_for_run wRun (.isDir [w2bad, w2good]) false
      = compute_max_for_run wRun (.isDir ([w2bad, w2good].map neutralizeFailure)) false) ∧
    ∃ ws, compute_max_warnings (.isDir [w2bad, w2good]) false = .ok ws ∧
      ∀ n, n ∈ ws ↔ ∃ f ∈ ([w2bad, w2good] : List Entry), parseFailed f = true ∧ f.name = n :=
  c2_aggregator_skips_failures wRun [w2bad, w2good] [w2bad, w2good] false (by decide)

/-- Tag name used by the batch counterexample. -/
def accTag : String := "acc"

/-- A well-formed event parseable by both backends. -/
def goodEvent : Event :=
  { step := some 3, wall_time := some 0,
    summary := some [{ tag := some accTag, simple_value := 1 }] }

/-- Base name of the good batch file. -/
def cexGoodName : String := "events.out.tfevents.good"

/-- Base name of the corrupt batch file. -/
def cexBadName : String := "events.out.tfevents.bad"

/-- A batch file both backends fail to parse. -/
def cexBad : BatchFile :=
  { name := cexBadName, content := [], aParses := false, bParses := false }

/-- A batch file both backends parse. -/
def cexGood : BatchFile :=
  { name := cexGoodName, content := [goodEvent], aParses := true, bParses := true }

/-- The row the good batch file yields. -/
def goodRow : Row :=
  { tag := accTag, step := some 3, value := 1, wall_time := some 0 }

/-- C2 counterexample: in the multi-file loop of read_results.main, a
parse failure on the first file aborts the whole batch read with the
wrapped error — the second, valid file's rows and tags are not
produced, although reading it alone succeeds. -/
theorem c2_counterexample :
    mainBatchRead true true none [cexBad, cexGood] ([], [])
        = .error (tfWrapHead ++ iterFailText) ∧
    mainBatchRead true true none [cexGood] ([], [])
        = .ok ([(goodRow, cexGoodName)], [accTag]) :=
  ⟨by decide, by decide⟩

/-- C3: read_events tries Variant A first; when A's library is absent
it falls through to Variant B with no warning and no error, and when A
is present but fails on this specific file it writes one warning to the
diagnostic stream and retries with Variant B; in both cases a file
parseable by Variant B yields exactly Variant B's rows and tags. -/
theorem c3_fallback_to_variant_b (env : ReadEnv) (path : String) (file : EventFile)
    (w : Option (List String)) (hB : env.bAvail = true ∧ env.bParses = true) :
    (env.aAvail = false →
      read_events env path file w
        = (.ok (read_with_tf_summary_iterator file w).1
            (read_with_tf_summary_iterator file w).2 backendBName, [])) ∧
    (env.aAvail = true → env.aParses = false →
      read_events env path file w
        = (.ok (read_with_tf_summary_iterator file w).1
            (read_with_tf_summary_iterator file w).2 backendBName,
           [eaWarnHead ++ path ++ warnSep ++ env.aErrMsg])) := by
  obtain ⟨hba, hbp⟩ := hB
  constructor
  · intro ha
    simp [read_events, runBackendA, ha, readEventsB, runBackendB, hba, hbp]
  · intro ha hap
    simp [read_events, runBackendA, ha, hap, readEventsB, runBackendB, hba, hbp]

/-- Environment where Variant A is importable but fails on the file,
and Variant B works. -/
def env3 : ReadEnv :=
  { aAvail := true, bAvail := true, aParses := false, bParses := true,
    aErrMsg := accFailText, bErrMsg := iterFailText }

theorem c3_witness :
    read_events env3 cexGoodName [goodEvent] none
      = (.ok (read_with_tf_summary_iterator [goodEvent] none).1
          (read_with_tf_summary_iterator [goodEvent] none).2 backendBName,
         [eaWarnHead ++ cexGoodName ++ warnSep ++ env3.aErrMsg]) :=
  (c3_fallback_to_variant_b env3 cexGoodName [goodEvent] none (by decide)).2 (by decide) (by decide)

/-- C4: read_events fails with the RuntimeError naming both
dependencies exactly when the Variant A attempt failed and Variant B's
library is unavailable, and with the RuntimeError wrapping Variant B's
own exception exactly when the Variant A attempt failed and Variant B
parses this file unsuccessfully; in particular it never returns a
normal (silently empty) result in either situation. -/
theorem c4_fatal_errors (env : ReadEnv) (path : String) (file : EventFile)
    (w : Option (List String)) :
    ((read_events env path file w).1 = .backendUnavailable neitherBackendMsg ↔
      (env.aAvail = false ∨ env.aParses = false) ∧ env.bAvail = false) ∧
    ((read_events env path file w).1 = .parseError (tfWrapHead ++ env.bErrMsg) ↔
      (env.aAvail = false ∨ env.aParses = false) ∧ env.bAvail = true ∧ env.bParses = false) := by
  obtain ⟨a, b, ap, bp, am, bm⟩ := env
  cases a <;> cases b <;> cases ap <;> cases bp <;>
    simp [read_events, runBackendA, runBackendB, readEventsB]

/-- Environment with neither backend library importable. -/
def env4 : ReadEnv :=
  { aAvail := false, bAvail := false, aParses := true, bParses := true,
    aErrMsg := accFailText, bErrMsg := iterFailText }

theorem c4_witness :
    (read_events env4 cexBadName [] none).1 = .backendUnavailable neitherBackendMsg :=
  (c4_fatal_errors env4 cexBadName [] none).1.mpr (by decide)

/-- C9: an empty wanted-tags list is falsy, exactly like passing no
filter: both backends and read_events behave identically on the empty
list and on none. -/
theorem c9_empty_filter_is_no_filter (env : ReadEnv) (path : String) (file : EventFile) :
    read_with_event_accumulator file (some []) = read_with_event_accumulator file none ∧
    read_with_tf_summary_iterator file (some []) = read_with_tf_summary_iterator file none ∧
    read_events env path file (some []) = read_events env path file none := by
  have hA : read_with_event_accumulator file (some [])
      = read_with_event_accumulator file none := by
    simp [read_with_event_accumulator, listTruthy]
  have hBval : bValStep (some []) = bValStep none := by
    funext e acc v
    cases v.tag <;> simp [bValStep, listTruthy]
  have hBev : bEventStep (some []) = bEventStep none := by
    funext acc e
    cases hs : e.summary <;> simp [bEventStep, hs, hBval]
  have hB : read_with_tf_summary_iterator file (some [])
      = read_with_tf_summary_iterator file none := by
    simp [read_with_tf_summary_iterator, hBev]
  refine ⟨hA, hB, ?_⟩
  simp [read_events, runBackendA, runBackendB, readEventsB, hA, hB]

/-! Characterizations of the two backends, used for the equivalence
claim. -/

/-- Whether a tag passes the wanted-tags filter (everything passes when
the filter is falsy). -/
def keepTag (wanted : Option (List String)) (t : String) : Bool :=
  if listTruthy wanted then decide (t ∈ wanted.getD []) else true

/-- The row Variant B emits for one scalar value entry, if any. -/
def bRowOf (wanted : Option (List String)) (e : Event) (v : SummaryValue) : Option Row :=
  match v.tag with
  | none => none
  | some t =>
    if keepTag wanted t
    then some { tag := t, step := e.step, value := v.simple_value, wall_time := e.wall_time }
    else none

/-- The rows Variant B emits, event-major in file order. -/
def bRows (file : EventFile) (wanted : Option (List String)) : List Row :=
  file.flatMap (fun e => (eventVals e).filterMap (bRowOf wanted e))

/-- Every non-null tag occurrence of the file, in file order. -/
def allTagsOf (file : EventFile) : List String :=
  file.flatMap (fun e => (eventVals e).filterMap (fun v => v.tag))

lemma keepTag_eq (wanted : Option (List String)) (t : String) :
    keepTag wanted t = !(listTruthy wanted && !(decide (t ∈ wanted.getD []))) := by
  cases hl : listTruthy wanted <;> simp [keepTag, hl]

lemma bValStep_char (wanted : Option (List String)) (e : Event) :
    ∀ (vs : List SummaryValue) (acc : List Row × List String),
    vs.foldl (bValStep wanted e) acc
      = (acc.1 ++ vs.filterMap (bRowOf wanted e),
         (vs.filterMap (fun v => v.tag)).foldl setIns acc.2) := by
  intro vs
  induction vs with
  | nil => intro acc; simp
  | cons v vs ih =>
    intro acc
    cases hv : v.tag with
    | none =>
      have hstep : bValStep wanted e acc v = acc := by simp [bValStep, hv]
      rw [List.foldl_cons, hstep, ih]
      simp [List.filterMap_cons, hv, bRowOf]
    | some t =>
      by_cases hk : keepTag wanted t = true
      · have hraw : (listTruthy wanted && !(decide (t ∈ wanted.getD []))) = false := by
          rw [keepTag_eq, Bool.not_eq_true'] at hk
          exact hk
        have hstep : bValStep wanted e acc v
            = (acc.1 ++ [{ tag := t, step := e.step, value := v.simple_value, wall_time := e.wall_time }], setIns acc.2 t) := by
          simp [bValStep, hv, hraw]
        have hrow : bRowOf wanted e v
            = some { tag := t, step := e.step, value := v.simple_value, wall_time := e.wall_time } := by
          simp [bRowOf, hv, hk]
        rw [List.foldl_cons, hstep, ih]
        simp [List.filterMap_cons, hv, hrow]
      · have hk2 : keepTag wanted t = false := by
          simpa using hk
        have hraw : (listTruthy wanted && !(decide (t ∈ wanted.getD []))) = true := by
          rw [keepTag_eq, Bool.not_eq_false'] at hk2
          exact hk2
        have hstep : bValStep wanted e acc v = (acc.1, setIns acc.2 t) := by
          simp [bValStep, hv, hraw]
        have hrow : bRowOf wanted e v = none := by
          simp [bRowOf, hv, hk2]
        rw [List.foldl_cons, hstep, ih]
        simp [List.filterMap_cons, hv, hrow]

lemma bEventStep_char (wanted : Option (List String)) :
    ∀ (file : EventFile) (acc : List Row × List String),
    file.foldl (bEventStep wanted) acc
      = (acc.1 ++ bRows file wanted, (allTagsOf file).foldl setIns acc.2) := by
  intro file
  induction file with
  | nil => intro acc; simp [bRows, allTagsOf]
  | cons e es ih =>
    intro acc
    rw [List.foldl_cons]
    cases hs : e.summary with
    | none =>
      have hstep : bEventStep wanted acc e = acc := by simp [bEventStep, hs]
      have hv : eventVals e = [] := by simp [eventVals, hs]
      rw [hstep, ih]
      simp [bRows, allTagsOf, hv]
    | some vs =>
      have hstep : bEventStep wanted acc e = vs.foldl (bValStep wanted e) acc := by
        simp [bEventStep, hs]
      have hv : eventVals e = vs := by simp [eventVals, hs]
      rw [hstep, bValStep_char, ih]
      simp [bRows, allTagsOf, hv, List.foldl_append]

lemma read_with_tf_char (file : EventFile) (wanted : Option (List String)) :
    read_with_tf_summary_iterator file wanted
      = (bRows file wanted, sortStrings ((allTagsOf file).foldl setIns [])) := by
  simp [read_with_tf_summary_iterator, bEventStep_char]

lemma tagIns_char : ∀ (vs : List SummaryValue) (acc : List String),
    vs.foldl (fun acc v =>
      match v.tag with
      | none => acc
      | some t => setIns acc t) acc
      = (vs.filterMap (fun v => v.tag)).foldl setIns acc := by
  intro vs
  induction vs with
  | nil => intro acc; rfl
  | cons v vs ih =>
    intro acc
    cases hv : v.tag with
    | none =>
      rw [List.foldl_cons, ih]
      simp [List.filterMap_cons, hv]
    | some t =>
      rw [List.foldl_cons, ih]
      simp [List.filterMap_cons, hv]

lemma eaScalarTags_char (file : EventFile) :
    eaScalarTags file = (allTagsOf file).foldl setIns [] := by
  have key : ∀ (f : EventFile) (acc : List String),
      f.foldl (fun acc e =>
        match e.summary with
        | none => acc
        | some vs => vs.foldl (fun acc v =>
            match v.tag with
            | none => acc
            | some t => setIns acc t) acc) acc
      = (allTagsOf f).foldl setIns acc := by
    intro f
    induction f with
    | nil => intro acc; simp [allTagsOf]
    | cons e es ih =>
      intro acc
      rw [List.foldl_cons]
      cases hs : e.summary with
      | none =>
        have hv : eventVals e = [] := by simp [eventVals, hs]
        simp only [hs]
        rw [ih]
        simp [allTagsOf, hv]
      | some vs =>
        have hv : eventVals e = vs := by simp [eventVals, hs]
        simp only [hs]
        rw [tagIns_char, ih]
        simp [allTagsOf, hv, List.foldl_append]
  exact key file []

lemma mem_setIns_foldl {α : Type} [DecidableEq α] :
    ∀ (l acc : List α) (x : α), x ∈ l.foldl setIns acc ↔ x ∈ acc ∨ x ∈ l := by
  intro l
  induction l with
  | nil => intro acc x; simp
  | cons b t ih =>
    intro acc x
    rw [List.foldl_cons, ih]
    have hsi : x ∈ setIns acc b ↔ x ∈ acc ∨ x = b := by
      unfold setIns
      split

      · constructor
        · intro hx; exact Or.inl hx
        · intro hx
          rcases hx with hx | rfl
          · exact hx
          · assumption
      · simp [List.mem_append]
    rw [hsi]
    simp [List.mem_cons]
    tauto

lemma mem_insertStr (a x : String) : ∀ l : List String, x ∈ insertStr a l ↔ x = a ∨ x ∈ l := by
  intro l
  induction l with
  | nil => simp [insertStr]
  | cons b t ih =>
    simp only [insertStr]
    split
    · simp [List.mem_cons]
    · rw [List.mem_cons, ih]
      simp [List.mem_cons]
      tauto

lemma mem_sortStrings (x : String) : ∀ l : List String, x ∈ sortStrings l ↔ x ∈ l := by
  intro l
  induction l with
  | nil => simp [sortStrings]
  | cons b t ih =>
    simp only [sortStrings]
    rw [mem_insertStr, ih]
    simp [List.mem_cons]

lemma mem_allTagsOf (file : EventFile) (t : String) :
    t ∈ allTagsOf file ↔ ∃ e ∈ file, ∃ v ∈ eventVals e, v.tag = some t := by
  simp [allTagsOf, List.mem_flatMap, List.mem_filterMap]

lemma mem_eaScalarTags (file : EventFile) (t : String) :
    t ∈ eaScalarTags file ↔ ∃ e ∈ file, ∃ v ∈ eventVals e, v.tag = some t := by
  rw [eaScalarTags_char, mem_setIns_foldl, ← mem_allTagsOf]
  simp

lemma mem_eaScalars (file : EventFile) (tag : String) (p : Option Int × Rat × Option Rat) :
    p ∈ eaScalars file tag ↔ ∃ e ∈ file, ∃ v ∈ eventVals e,
      v.tag = some tag ∧ p = (e.step, v.simple_value, e.wall_time) := by
  simp only [eaScalars, List.mem_flatMap, List.mem_filterMap]
  constructor
  · rintro ⟨e, he, v, hv, hsome⟩
    split at hsome
    · rcases Option.some.inj hsome with rfl
      exact ⟨e, he, v, hv, by assumption, rfl⟩
    · exact absurd hsome (Option.noConfusion)
  · rintro ⟨e, he, v, hv, htag, rfl⟩
    exact ⟨e, he, v, hv, by rw [if_pos htag]⟩

lemma bRowOf_eq_some (wanted : Option (List String)) (e : Event) (v : SummaryValue) (r : Row) :
    bRowOf wanted e v = some r ↔
      (v.tag = some r.tag ∧ keepTag wanted r.tag = true ∧ e.step = r.step ∧
       v.simple_value = r.value ∧ e.wall_time = r.wall_time) := by
  obtain ⟨rt, rs, rv, rwt⟩ := r
  cases hv : v.tag with
  | none => simp [bRowOf, hv]
  | some t =>
    simp only [bRowOf, hv]
    by_cases hk : keepTag wanted t = true
    · rw [if_pos hk]
      constructor
      · intro h
        rw [Option.some.injEq, Row.mk.injEq] at h
        obtain ⟨h1, h2, h3, h4⟩ := h
        subst h1
        exact ⟨rfl, hk, h2, h3, h4⟩
      · rintro ⟨h1, hkr, h2, h3, h4⟩
        have h5 := Option.some.inj h1
        subst h5
        rw [Option.some.injEq, Row.mk.injEq]
        exact ⟨rfl, h2, h3, h4⟩
    · rw [if_neg hk]
      constructor
      · intro h
        exact Option.noConfusion h
      · rintro ⟨h1, hkr, h2, h3, h4⟩
        have h5 := Option.some.inj h1
        subst h5
        exact absurd hkr hk

lemma mem_bRows (file : EventFile) (wanted : Option (List String)) (r : Row) :
    r ∈ bRows file wanted ↔
      (keepTag wanted r.tag = true ∧ ∃ e ∈ file, ∃ v ∈ eventVals e,
        v.tag = some r.tag ∧ e.step = r.step ∧ v.simple_value = r.value ∧
        e.wall_time = r.wall_time) := by
  simp only [bRows, List.mem_flatMap, List.mem_filterMap]
  constructor
  · rintro ⟨e, he, v, hv, hrow⟩
    rw [bRowOf_eq_some] at hrow
    obtain ⟨h1, h2, h3, h4, h5⟩ := hrow
    exact ⟨h2, e, he, v, hv, h1, h3, h4, h5⟩
  · rintro ⟨hk, e, he, v, hv, h1, h3, h4, h5⟩
    exact ⟨e, he, v, hv, (bRowOf_eq_some wanted e v r).mpr ⟨h1, hk, h3, h4, h5⟩⟩

lemma A_rows_def (file : EventFile) (wanted : Option (List String)) :
    (read_with_event_accumulator file wanted).1
      = (if listTruthy wanted
          then (eaScalarTags file).filter (fun t => decide (t ∈ wanted.getD []))
          else eaScalarTags file).flatMap
        (fun t => (eaScalars file t).map (fun p =>
          { tag := t, step := p.1, value := p.2.1, wall_time := p.2.2 })) := rfl

lemma mem_selTags (file : EventFile) (wanted : Option (List String)) (t : String) :
    t ∈ (if listTruthy wanted
          then (eaScalarTags file).filter (fun t => decide (t ∈ wanted.getD []))
          else eaScalarTags file)
      ↔ t ∈ eaScalarTags file ∧ keepTag wanted t = true := by
  cases hl : listTruthy wanted <;> simp [keepTag, hl, List.mem_filter]

lemma mem_A_rows (file : EventFile) (wanted : Option (List String)) (r : Row) :
    r ∈ (read_with_event_accumulator file wanted).1 ↔
      (keepTag wanted r.tag = true ∧ ∃ e ∈ file, ∃ v ∈ eventVals e,
        v.tag = some r.tag ∧ e.step = r.step ∧ v.simple_value = r.value ∧
        e.wall_time = r.wall_time) := by
  obtain ⟨rt, rs, rv, rwt⟩ := r
  rw [A_rows_def, List.mem_flatMap]
  constructor
  · rintro ⟨t, ht, hr⟩
    rw [List.mem_map] at hr
    obtain ⟨p, hp, hpr⟩ := hr
    rw [mem_eaScalars] at hp
    obtain ⟨e, he, v, hv, htag, rfl⟩ := hp
    rw [mem_selTags] at ht
    rw [Row.mk.injEq] at hpr
    obtain ⟨h1, h2, h3, h4⟩ := hpr
    subst h1
    exact ⟨ht.2, e, he, v, hv, htag, h2, h3, h4⟩
  · rintro ⟨hk, e, he, v, hv, htag, hstep, hval, hwall⟩
    refine ⟨rt, ?_, ?_⟩
    · rw [mem_selTags]
      exact ⟨(mem_eaScalarTags file rt).mpr ⟨e, he, v, hv, htag⟩, hk⟩
    · rw [List.mem_map]
      refine ⟨(e.step, v.simple_value, e.wall_time), ?_, ?_⟩
      · rw [mem_eaScalars]
        exact ⟨e, he, v, hv, htag, rfl⟩
      · rw [Row.mk.injEq]
        exact ⟨rfl, hstep, hval, hwall⟩

/-- C5: the two backends are interchangeable on the modelled
(scalar-only, well-formed) event files: for every file and every tag
filter they produce the same set of (tag, step, value) row keys and the
same set of observed tag names, so the reader's normalized output does
not depend on which backend served the file. -/
theorem c5_backend_equivalence (file : EventFile) (wanted : Option (List String)) :
    ((read_with_event_accumulator file wanted).1.map rowKey).toFinset
      = ((read_with_tf_summary_iterator file wanted).1.map rowKey).toFinset ∧
    (read_with_event_accumulator file wanted).2.toFinset
      = (read_with_tf_summary_iterator file wanted).2.toFinset := by
  constructor
  · apply Finset.ext
    intro k
    simp only [List.mem_toFinset, List.mem_map]
    constructor
    · rintro ⟨r, hr, rfl⟩
      refine ⟨r, ?_, rfl⟩
      rw [read_with_tf_char]
      exact (mem_bRows file wanted r).mpr ((mem_A_rows file wanted r).mp hr)
    · rintro ⟨r, hr, rfl⟩
      refine ⟨r, ?_, rfl⟩
      rw [read_with_tf_char] at hr
      exact (mem_A_rows file wanted r).mpr ((mem_bRows file wanted r).mp hr)
  · apply Finset.ext
    intro t
    simp only [List.mem_toFinset]
    rw [read_with_tf_char]
    show t ∈ eaScalarTags file ↔ t ∈ sortStrings ((allTagsOf file).foldl setIns [])
    rw [mem_sortStrings, eaScalarTags_char]

/-- First witness entry for the tie-breaking run: older file, step 5. -/
def w1a : Entry :=
  { name := "events.out.tfevents.a", isFile := true, mtime := 1,
    parsed := Except.ok [{ step := some 5, value := some 2 }] }

/-- Second witness entry for the tie-breaking run: newer file, step 9,
same maximal value as the older file. -/
def w1b : Entry :=
  { name := "events.out.tfevents.b", isFile := true, mtime := 2,
    parsed := Except.ok [{ step := some 9, value := some 2 }] }

theorem c1_witness :
    ∃ i, ∃ h : i < (pooledRows [w1a, w1b]).length,
      compute_max_for_run wRun (.isDir [w1a, w1b]) false
        = .ok (some
            { run := wRun,
              max_value := ((pooledRows [w1a, w1b]).get ⟨i, h⟩).1,
              max_step := ((pooledRows [w1a, w1b]).get ⟨i, h⟩).2.1,
              max_file := ((pooledRows [w1a, w1b]).get ⟨i, h⟩).2.2 }) ∧
      (∀ t ∈ pooledRows [w1a, w1b], t.1 ≤ ((pooledRows [w1a, w1b]).get ⟨i, h⟩).1) ∧
      ∀ j, ∀ hj : j < (pooledRows [w1a, w1b]).length, j < i →
        ((pooledRows [w1a, w1b]).get ⟨j, hj⟩).1 < ((pooledRows [w1a, w1b]).get ⟨i, h⟩).1 :=
  c1_max_first_occurrence wRun [w1a, w1b] [w1a, w1b] (by decide)
    (by
      intro f hf
      rcases List.mem_cons.mp hf with rfl | hf2
      · exact ⟨_, rfl⟩
      · rcases List.mem_cons.mp hf2 with rfl | hf3
        · exact ⟨_, rfl⟩
        · exact absurd hf3 (List.not_mem_nil f))
    (by decide)

theorem c8_witness :
    ∃ l, ([w8b, w8c, w8a] : List Entry).getLast? = some l ∧
      compute_max_for_run wRun (.isDir [w8a, w8b, w8c]) true
        = .ok (summaryOfTriple wRun (scanFiles [l])) ∧
      ∀ f ∈ ([w8b, w8c, w8a] : List Entry), f.mtime ≤ l.mtime :=
  (c8_latest_only_restricts wRun [w8a, w8b, w8c] [w8b, w8c, w8a] (by decide)).1 (by decide)

end DML
